import Mathlib

/-!
Verification of the MutilLanguageTranslate translation gateway core.

The Python sources under `translation_project/translator/` are shallowly
embedded below: pure string manipulation becomes functions on `List Char`,
stateful services become explicit state-passing step functions, and calls
into external collaborators (the HF model, `float()` parsing, the config
files) become explicit parameters.  Python `re.sub` with a literal pattern
is modelled as left-to-right removal of non-overlapping occurrences.

Notes on fidelity, applying uniformly to every definition below:
* Python `str.strip()` strips all Unicode whitespace; the embedding strips
  the ASCII whitespace characters, which covers every string manipulated
  by the properties at stake.
* Python `str.splitlines()` also splits on `\r` and rarer boundary
  characters; the embedding splits on `'\n'` only, uniformly in all
  functions that split lines, so the relative properties are unaffected.
-/

/-- ASCII whitespace, as recognised by Python `str.strip` / `\s`. -/
def isWsChar (c : Char) : Bool :=
  c = ' ' ∨ c = '\t' ∨ c = '\n' ∨ c = '\x0d' ∨ c = '\x0b' ∨ c = '\x0c'

/-- Python `str.lstrip()`. -/
def lstripL (l : List Char) : List Char := l.dropWhile isWsChar

/-- Python `str.strip()`. -/
def stripL (l : List Char) : List Char :=
  ((l.dropWhile isWsChar).reverse.dropWhile isWsChar).reverse

/-- Python `str.split(sep)` for a single-character separator. -/
def splitChar (sep : Char) (l : List Char) : List (List Char) :=
  match l with
  | [] => [[]]
  | c :: rest =>
    match splitChar sep rest with
    | [] => if c = sep then [[], []] else [[c]]
    | g :: gs => if c = sep then [] :: g :: gs else (c :: g) :: gs

/-- Python `str.split('\n')`. -/
def splitNl (l : List Char) : List (List Char) := splitChar '\n' l

/-- Number of occurrences of a character (used to count newlines). -/
def countChar (c : Char) (l : List Char) : Nat :=
  (l.filter (fun x => x = c)).length

/-- If `pat` is a prefix of `s`, return the remaining suffix. -/
def stripPfx? : List Char → List Char → Option (List Char)
  | [], s => some s
  | _ :: _, [] => none
  | p :: ps, c :: cs => if p = c then stripPfx? ps cs else none

theorem stripPfx?_eq_some {pat s tail : List Char}
    (h : stripPfx? pat s = some tail) : s = pat ++ tail := by
  induction pat generalizing s with
  | nil => simpa [stripPfx?] using h
  | cons p ps ih =>
    cases s with
    | nil => simp [stripPfx?] at h
    | cons c cs =>
      by_cases hpc : p = c
      · simp [stripPfx?, hpc] at h
        simpa [hpc] using congrArg (c :: ·) (ih h)
      · simp [stripPfx?, hpc] at h

/-- One left-to-right pass removing every non-overlapping occurrence of
`pat`, with explicit fuel; `re.sub(pat, '', s)` for a literal `pat` is
`removeOccFuel pat s.length s`, since each step consumes at least one
input character when `pat` is nonempty. -/
def removeOccFuel (pat : List Char) : Nat → List Char → List Char
  | 0, s => s
  | _ + 1, [] => []
  | fuel + 1, c :: rest =>
    match stripPfx? pat (c :: rest) with
    | some tail => removeOccFuel pat fuel tail
    | none => c :: removeOccFuel pat fuel rest

/-- Python `re.sub(re.escape-like literal pat, '', s)`. -/
def removeAll (pat : List Char) (s : List Char) : List Char :=
  removeOccFuel pat s.length s

/-- The literal marker patterns stripped by
`TranslationService._sanitize_text` (`dangerous_patterns`), in source
order. -/
def dangerousPatterns : List (List Char) :=
  ["[INST]".data, "[/INST]".data, "<<SYS>>".data, "<</SYS>>".data,
   "###".data, "---".data, "```".data]

/-- `TranslationService._sanitize_text`: remove each dangerous pattern in
turn (each `re.sub` removes all occurrences of one pattern in a single
left-to-right pass). -/
def sanitize_text (l : List Char) : List Char :=
  dangerousPatterns.foldl (fun acc pat => removeAll pat acc) l

example : sanitize_text "a---b".data = "ab".data := by decide
example : sanitize_text "[[INST]INST]".data = "[INST]".data := by decide
example : sanitize_text "[INST]".data = "".data := by decide

/-- First index of `pat` as a substring, Python `str.find` (as an option). -/
def findSub? (pat : List Char) : List Char → Option Nat
  | [] => if (stripPfx? pat ([] : List Char)).isSome then some 0 else none
  | c :: rest =>
    if (stripPfx? pat (c :: rest)).isSome then some 0
    else (findSub? pat rest).map (· + 1)

theorem removeOccFuel_of_findSub?_none {pat : List Char} :
    ∀ (fuel : Nat) (s : List Char), findSub? pat s = none →
      removeOccFuel pat fuel s = s := by
  intro fuel
  induction fuel with
  | zero => intro s _; rfl
  | succ n ih =>
    intro s h
    cases s with
    | nil => rfl
    | cons c rest =>
      simp only [findSub?] at h
      by_cases hp : (stripPfx? pat (c :: rest)).isSome
      · simp [hp] at h
      · have hrest : findSub? pat rest = none := by
          by_cases hr : findSub? pat rest = none
          · exact hr
          · cases hfr : findSub? pat rest with
            | none => rfl
            | some k => simp [hp, hfr] at h
        have hnone : stripPfx? pat (c :: rest) = none := by
          cases hsp : stripPfx? pat (c :: rest) with
          | none => rfl
          | some t => simp [hsp] at hp
        simp only [removeOccFuel, hnone]
        rw [ih rest hrest]

theorem removeAll_of_findSub?_none {pat s : List Char}
    (h : findSub? pat s = none) : removeAll pat s = s :=
  removeOccFuel_of_findSub?_none s.length s h

theorem countChar_append (c : Char) (a b : List Char) :
    countChar c (a ++ b) = countChar c a + countChar c b := by
  simp [countChar, List.filter_append]

theorem countChar_removeOccFuel {ch : Char} {pat : List Char}
    (hpat : countChar ch pat = 0) :
    ∀ (fuel : Nat) (s : List Char),
      countChar ch (removeOccFuel pat fuel s) = countChar ch s := by
  intro fuel
  induction fuel with
  | zero => intro s; rfl
  | succ n ih =>
    intro s
    cases s with
    | nil => rfl
    | cons c rest =>
      cases hsp : stripPfx? pat (c :: rest) with
      | some tail =>
        simp only [removeOccFuel, hsp]
        rw [ih tail, stripPfx?_eq_some hsp, countChar_append, hpat]
        omega
      | none =>
        simp only [removeOccFuel, hsp]
        have := ih rest
        simp only [countChar, List.filter_cons] at *
        by_cases hc : c = ch
        · simp [hc, this]
        · simp [hc, this]

theorem countChar_removeAll {ch : Char} {pat : List Char}
    (hpat : countChar ch pat = 0) (s : List Char) :
    countChar ch (removeAll pat s) = countChar ch s :=
  countChar_removeOccFuel hpat s.length s

theorem countChar_sanitize_text (l : List Char) :
    countChar '\n' (sanitize_text l) = countChar '\n' l := by
  simp only [sanitize_text, dangerousPatterns, List.foldl_cons, List.foldl_nil]
  rw [countChar_removeAll (by decide), countChar_removeAll (by decide),
    countChar_removeAll (by decide), countChar_removeAll (by decide),
    countChar_removeAll (by decide), countChar_removeAll (by decide),
    countChar_removeAll (by decide)]

/-- `sanitize_text s` contains no occurrence of any dangerous pattern. -/
def markerFree (l : List Char) : Prop :=
  ∀ pat ∈ dangerousPatterns, findSub? pat l = none

instance (l : List Char) : Decidable (markerFree l) :=
  inferInstanceAs (Decidable (∀ pat ∈ dangerousPatterns, findSub? pat l = none))

theorem sanitize_text_of_markerFree {t : List Char} (h : markerFree t) :
    sanitize_text t = t := by
  simp only [markerFree, dangerousPatterns, List.mem_cons, List.not_mem_nil,
    forall_eq_or_imp] at h
  obtain ⟨h1, h2, h3, h4, h5, h6, h7, -⟩ := h
  simp only [sanitize_text, dangerousPatterns, List.foldl_cons, List.foldl_nil]
  rw [removeAll_of_findSub?_none h1, removeAll_of_findSub?_none h2,
    removeAll_of_findSub?_none h3, removeAll_of_findSub?_none h4,
    removeAll_of_findSub?_none h5, removeAll_of_findSub?_none h6,
    removeAll_of_findSub?_none h7]

/-- `TranslationService.LANGUAGE_PROMPT_NAMES`. -/
def LANGUAGE_PROMPT_NAMES : List (String × String) :=
  [("zh-TW", "Traditional Chinese (zh-TW)"), ("zh-CN", "Simplified Chinese (zh-CN)"),
   ("en", "English (en)"), ("ja", "Japanese (ja)"), ("ko", "Korean (ko)"),
   ("fr", "French (fr)"), ("de", "German (de)"), ("es", "Spanish (es)"),
   ("auto", "auto")]

/-- `LANGUAGE_PROMPT_NAMES.get(code, code)`. -/
def langPromptName (code : String) : String :=
  match LANGUAGE_PROMPT_NAMES.find? (fun p => p.1 = code) with
  | some p => p.2
  | none => code

/-- The `extra_constraints` block of `_build_translation_prompt`. -/
def extraConstraints (forceOutputOnly : Bool) : String :=
  if forceOutputOnly then
    "\n- 只輸出一行譯文。\n- 不要輸出原文。\n- 不要列點、不要章節標題、不要補充說明、不要延伸內容。\n"
  else ""

/-- Everything `_build_translation_prompt` emits before the sanitised user
text (the instruction block through the `原文：` header). -/
def promptHeader (sourceName targetName : String) (forceOutputOnly : Bool) : String :=
  "[INST] 你是專業翻譯員。你的任務是『翻譯』，不是改寫或續寫。\n" ++
  "請將下列文字從 " ++ sourceName ++ " 翻譯成 " ++ targetName ++ "。\n" ++
  "要求：\n" ++
  "- 只輸出譯文，不要輸出任何其他文字。\n" ++
  "- 不要解釋、不要求澄清、不提出問題。\n" ++
  "- 不要產生章節、目錄或延伸內容。\n" ++
  extraConstraints forceOutputOnly ++
  "\n原文：\n"

/-- `TranslationService._build_translation_prompt`. -/
def build_translation_prompt (text : List Char)
    (sourceLanguage targetLanguage : String) (forceOutputOnly : Bool) : List Char :=
  (promptHeader (langPromptName sourceLanguage) (langPromptName targetLanguage)
    forceOutputOnly).data ++ sanitize_text text ++ "\n[/INST]".data

/-- C6 counterexample: the sanitiser is not a fixpoint after one
application.  Removing `[INST]` from `[[INST]INST]` in one left-to-right
pass produces `[INST]` again, which the second application removes. -/
theorem C6_counterexample :
    sanitize_text "[[INST]INST]".data = "[INST]".data ∧
    sanitize_text (sanitize_text "[[INST]INST]".data) = [] ∧
    sanitize_text (sanitize_text "[[INST]INST]".data) ≠
      sanitize_text "[[INST]INST]".data := by
  refine ⟨by decide, by decide, by decide⟩

/-- C6 (amended): the sanitiser is a fixpoint on every string whose
sanitised form contains no occurrence of the seven marker patterns; in
general a removal can splice two fragments into a fresh marker, so the
fixpoint property only holds under that side condition. -/
theorem C6_sanitize_fixpoint (s : List Char)
    (h : markerFree (sanitize_text s)) :
    sanitize_text (sanitize_text s) = sanitize_text s :=
  sanitize_text_of_markerFree h

/-- C6 witness: a concrete marker-free input on which the amended fixpoint
theorem applies. -/
theorem C6_sanitize_fixpoint_witness :
    sanitize_text (sanitize_text "hello world".data) =
      sanitize_text "hello world".data :=
  C6_sanitize_fixpoint "hello world".data (by decide)

/-- C7: the sanitiser preserves the newline count of its input, and the
translation prompt embeds the sanitised text verbatim as its user-text
section (between the instruction header and the closing `[/INST]`), so
the user-text section of the prompt has the newline count of the input. -/
theorem C7_sanitizer_preserves_newlines (text : List Char) (src tgt : String)
    (force : Bool) :
    countChar '\n' (sanitize_text text) = countChar '\n' text ∧
    build_translation_prompt text src tgt force =
      (promptHeader (langPromptName src) (langPromptName tgt) force).data ++
        sanitize_text text ++ "\n[/INST]".data :=
  ⟨countChar_sanitize_text text, rfl⟩

/-- `translator.enums.ModelStatus`. -/
inductive ModelStatus | not_loaded | loading | loaded | error deriving DecidableEq

/-- The two storage cells behind `ModelService._status`: the class
attribute (declared `_status: str = ModelStatus.NOT_LOADED` and read by
the `@classmethod`s `get_status`/`is_loaded` as `cls._status`), and the
instance attribute that `load_model`/`unload_model` create by assigning
`self._status`, which shadows the class attribute.  No method ever
assigns the class attribute. -/
structure MSState where
  classStatus : ModelStatus
  instStatus : Option ModelStatus
deriving DecidableEq

/-- A fresh `ModelService` singleton: class attribute `NOT_LOADED`, no
instance attribute written yet. -/
def msInit : MSState := ⟨ModelStatus.not_loaded, none⟩

/-- A read of `self._status`: the instance attribute when one has been
assigned, else the class attribute (Python attribute lookup). -/
def ms_self_status (s : MSState) : ModelStatus :=
  s.instStatus.getD s.classStatus

/-- `ModelService.is_loaded`: a `@classmethod` comparing `cls._status` —
the class attribute — with `LOADED`, regardless of any shadowing
instance attribute. -/
def ms_is_loaded (s : MSState) : Bool := s.classStatus = ModelStatus.loaded

/-- `ModelService.load_model`: the `LOADED`/`LOADING` early-outs read
`self._status`, and every status write assigns `self._status` — the
instance attribute.  The outcome of the actual weight-loading work (the
`try` body) is the oracle `loadOk`.  Returns the resulting state and the
boolean result. -/
def ms_load_model (s : MSState) (loadOk : Bool) : MSState × Bool :=
  if ms_self_status s = ModelStatus.loaded then (s, true)
  else if ms_self_status s = ModelStatus.loading then (s, false)
  else if loadOk then ({ s with instStatus := some ModelStatus.loaded }, true)
  else ({ s with instStatus := some ModelStatus.error }, false)

/-- `ModelService.unload_model`: assigns `self._status = NOT_LOADED`
(again the instance attribute). -/
def ms_unload_model (s : MSState) : MSState :=
  { s with instStatus := some ModelStatus.not_loaded }

/-- `ModelService.generate`: gated on the `@classmethod` `is_loaded()`;
when the gate passes, the tokenizer/model work is the oracle `infer`
(decoded text, or the exception it raised, which becomes
`INTERNAL_ERROR`).  A decoded text starting with the prompt has that
prefix removed and is stripped. -/
def ms_generate (s : MSState) (prompt : List Char)
    (infer : Except String (List Char)) : Except String (List Char) :=
  if ¬ ms_is_loaded s then Except.error "MODEL_NOT_LOADED"
  else
    match infer with
    | Except.ok decoded =>
      Except.ok (match stripPfx? prompt decoded with
        | some tail => stripL tail
        | none => decoded)
    | Except.error _ => Except.error "INTERNAL_ERROR"

/-- Operations a client can perform on the model-service state
(`generate` never mutates status). -/
inductive MEvent | load (loadOk : Bool) | unload | generate
deriving DecidableEq

/-- Effect of one operation on the two status cells. -/
def ms_step (e : MEvent) (s : MSState) : MSState :=
  match e with
  | MEvent.load ok => (ms_load_model s ok).1
  | MEvent.unload => ms_unload_model s
  | MEvent.generate => s

def ms_run (es : List MEvent) (s : MSState) : MSState :=
  es.foldl (fun s e => ms_step e s) s

/-- No operation ever assigns the class attribute. -/
theorem ms_run_classStatus (es : List MEvent) :
    ∀ s, (ms_run es s).classStatus = s.classStatus := by
  induction es with
  | nil => intro s; rfl
  | cons e rest ih =>
    intro s
    have hstep : (ms_step e s).classStatus = s.classStatus := by
      cases e with
      | load ok =>
        simp only [ms_step, ms_load_model]
        split
        · rfl
        · split
          · rfl
          · split <;> rfl
      | unload => rfl
      | generate => rfl
    show (ms_run rest (ms_step e s)).classStatus = s.classStatus
    rw [ih (ms_step e s), hstep]

/-- C1: the claim fails on the code.  `load_model`/`unload_model` assign
the instance attribute `self._status`, but `generate` gates on the
classmethod `is_loaded()`, which reads the class attribute `_status` —
and nothing ever assigns the class attribute.  So on the fresh singleton
`load_model()` returns true, yet the very next `generate` (and `generate`
after every sequence of loads, unloads and generates) fails with
`MODEL_NOT_LOADED`, contradicting the claim's second half. -/
theorem C1_shadowed_status_generate_fails :
    (ms_load_model msInit true).2 = true ∧
    (∀ (prompt : List Char) (infer : Except String (List Char)),
      ms_generate (ms_load_model msInit true).1 prompt infer =
        Except.error "MODEL_NOT_LOADED") ∧
    (∀ (es : List MEvent) (prompt : List Char)
        (infer : Except String (List Char)),
      ms_generate (ms_run es msInit) prompt infer =
        Except.error "MODEL_NOT_LOADED") := by
  refine ⟨rfl, ?_, ?_⟩
  · intro prompt infer
    have h : (ms_load_model msInit true).1.classStatus =
        ModelStatus.not_loaded := rfl
    simp [ms_generate, ms_is_loaded, h]
  · intro es prompt infer
    have h2 : (ms_run es msInit).classStatus = ModelStatus.not_loaded :=
      ms_run_classStatus es msInit
    simp [ms_generate, ms_is_loaded, h2]


/-- The recognised generation parameters (`temperature`, `top_p`,
`num_beams`, `max_new_tokens`), as assembled by
`ModelService._get_generation_params`. -/
structure GenParams where
  temperature : ℚ
  top_p : ℚ
  num_beams : Nat
  max_new_tokens : Nat
deriving DecidableEq

/-- Membership of a quality string in the `defaults` dict of
`_get_generation_params` (its keys are the three `QualityMode` values). -/
def isQualityKey (q : String) : Bool := q = "fast" ∨ q = "standard" ∨ q = "high"

/-- The hard-coded `defaults` table of `_get_generation_params`.  Callers
always pass one of the three keys; `standard` doubles as the final
fallback branch. -/
def qualityDefaults (q : String) : GenParams :=
  if q = "fast" then ⟨0.7, 0.9, 1, 512⟩
  else if q = "high" then ⟨0.3, 0.8, 4, 2048⟩
  else ⟨0.5, 0.85, 2, 1024⟩

/-- A per-quality entry of the YAML `generation` section: each recognised
field may be present or absent. -/
structure GenOverrides where
  temperature : Option ℚ := none
  top_p : Option ℚ := none
  num_beams : Option Nat := none
  max_new_tokens : Option Nat := none

/-- `ModelService._get_generation_params`: normalise the quality key, look
it up in the configured `generation` section, and fall back to the
hard-coded defaults field by field. -/
def get_generation_params (generationConfig : String → Option GenOverrides)
    (quality : String) : GenParams :=
  let qualityKey := if isQualityKey quality then quality else "standard"
  let d := qualityDefaults qualityKey
  match generationConfig qualityKey with
  | none => d
  | some ov =>
    ⟨ov.temperature.getD d.temperature, ov.top_p.getD d.top_p,
     ov.num_beams.getD d.num_beams, ov.max_new_tokens.getD d.max_new_tokens⟩

/-- The keyword arguments `ModelService.generate` hands to
`model.generate`: the quality-derived `gen_params` plus a hard-coded
`do_sample=True`. -/
structure GenerateCallArgs where
  params : GenParams
  do_sample : Bool

/-- The generation call as issued by `ModelService.generate`. -/
def generate_call_args (generationConfig : String → Option GenOverrides)
    (quality : String) : GenerateCallArgs :=
  ⟨get_generation_params generationConfig quality, true⟩

/-- C3 counterexample: with no configured per-quality parameters the code's
defaults differ from the claimed table (`fast` caps at 512 new tokens, not
128; `standard` uses 2 beams, not 1), and a call with `num_beams = 4 > 1`
still passes `do_sample = true` — it is never forced to false. -/
theorem C3_counterexample :
    (get_generation_params (fun _ => none) "fast").max_new_tokens = 512 ∧
    (get_generation_params (fun _ => none) "fast").max_new_tokens ≠ 128 ∧
    (get_generation_params (fun _ => none) "standard").num_beams = 2 ∧
    (get_generation_params (fun _ => none) "standard").num_beams ≠ 1 ∧
    (get_generation_params (fun _ => none) "high").num_beams = 4 ∧
    (generate_call_args (fun _ => none) "high").do_sample = true := by
  refine ⟨by decide, by decide, by decide, by decide, by decide, by decide⟩

/-- C3 (amended): when the configuration supplies no per-quality
parameters, the quality modes map to `fast = {0.7, 0.9, 1 beam, 512}`,
`standard = {0.5, 0.85, 2 beams, 1024}`, `high = {0.3, 0.8, 4 beams,
2048}`; there is no per-quality `do_sample` parameter, and every
generation call passes `do_sample = true` regardless of `num_beams`. -/
theorem C3_generation_params_defaults :
    get_generation_params (fun _ => none) "fast" = ⟨0.7, 0.9, 1, 512⟩ ∧
    get_generation_params (fun _ => none) "standard" = ⟨0.5, 0.85, 2, 1024⟩ ∧
    get_generation_params (fun _ => none) "high" = ⟨0.3, 0.8, 4, 2048⟩ ∧
    (∀ (cfg : String → Option GenOverrides) (q : String),
      (generate_call_args cfg q).do_sample = true) := by
  refine ⟨rfl, rfl, rfl, fun cfg q => rfl⟩

/-- `QueueService` state: the key set of `_active_requests` (in-flight
request ids) and the `_waiting_queue` deque, each waiting item carrying its
stored `queue_position`. -/
structure QState where
  active : List String
  waiting : List (String × Nat)
deriving DecidableEq

/-- Python dict insertion on the key set: overwriting an existing key
leaves the key set unchanged, a new key is appended. -/
def dictInsert (id : String) (l : List String) : List String :=
  if id ∈ l then l else l ++ [id]

/-- Result statuses returned by `acquire_slot`. -/
inductive SlotStatus
  | processing
  | pending (queuePosition estimatedWaitSeconds : Nat)
  | rejected
deriving DecidableEq

/-- `QueueService.acquire_slot`: admit immediately while under
`max_concurrent`; reject when the waiting queue is at `max_queue_size`;
otherwise append with position `len(waiting) + 1` and ETA `position * 3`. -/
def acquire_slot (maxConcurrent maxQueueSize : Nat) (id : String)
    (s : QState) : QState × SlotStatus :=
  if s.active.length < maxConcurrent then
    ({ active := dictInsert id s.active, waiting := s.waiting },
      SlotStatus.processing)
  else if maxQueueSize ≤ s.waiting.length then
    (s, SlotStatus.rejected)
  else
    ({ s with waiting := s.waiting ++ [(id, s.waiting.length + 1)] },
      SlotStatus.pending (s.waiting.length + 1) ((s.waiting.length + 1) * 3))

/-- The renumbering loop `for i, item in enumerate(queue):
item.queue_position = i + 1`, started at index `i`. -/
def renumberFrom (i : Nat) : List (String × Nat) → List (String × Nat)
  | [] => []
  | (id, _) :: t => (id, i + 1) :: renumberFrom (i + 1) t

/-- `QueueService.release_slot`: drop the id from in-flight if present,
then promote the head waiter (if any) to in-flight and renumber the rest.
Note the promotion happens whether or not `id` was in-flight. -/
def release_slot (id : String) (s : QState) : QState :=
  let active1 := s.active.erase id
  match s.waiting with
  | [] => { active := active1, waiting := [] }
  | (hid, _) :: t =>
    { active := dictInsert hid active1, waiting := renumberFrom 0 t }

/-- `QueueService.cancel_request`: only a still-queued item is cancelled —
it is removed from the waiting queue and the remaining waiters are
renumbered; any other id is a no-op. -/
def cancel_request (id : String) (s : QState) : QState :=
  if (s.waiting.map Prod.fst).contains id then
    { s with waiting := renumberFrom 0 (s.waiting.eraseP (fun p => p.1 = id)) }
  else s

/-- One client operation against the queue service. -/
inductive QOp
  | acquire (id : String)
  | release (id : String)
  | cancel (id : String)
deriving DecidableEq

def q_step (maxC maxQ : Nat) (op : QOp) (s : QState) : QState :=
  match op with
  | QOp.acquire id => (acquire_slot maxC maxQ id s).1
  | QOp.release id => release_slot id s
  | QOp.cancel id => cancel_request id s

/-- `QueueService._initialize`: empty in-flight set, empty waiting queue. -/
def q_init : QState := ⟨[], []⟩

def q_run (maxC maxQ : Nat) (ops : List QOp) : QState :=
  ops.foldl (fun s op => q_step maxC maxQ op s) q_init

/-- A run in which every `release_slot` call names a currently in-flight
request id (the discipline the translation service follows: it releases
exactly the id it admitted). -/
def q_safeRun (maxC maxQ : Nat) : List QOp → QState → Option QState
  | [], s => some s
  | op :: rest, s =>
    match op with
    | QOp.release id =>
      if id ∈ s.active then q_safeRun maxC maxQ rest (q_step maxC maxQ op s)
      else none
    | _ => q_safeRun maxC maxQ rest (q_step maxC maxQ op s)

/-- The stored queue positions of the waiting items are exactly
`1, 2, …, waiting.length`. -/
def posContiguous (s : QState) : Prop :=
  s.waiting.map Prod.snd = List.range' 1 s.waiting.length

instance (s : QState) : Decidable (posContiguous s) :=
  inferInstanceAs
    (Decidable (s.waiting.map Prod.snd = List.range' 1 s.waiting.length))

theorem renumberFrom_map_snd (l : List (String × Nat)) :
    ∀ i, (renumberFrom i l).map Prod.snd = List.range' (i + 1) l.length := by
  induction l with
  | nil => intro i; rfl
  | cons p t ih =>
    intro i
    obtain ⟨id, k⟩ := p
    simp only [renumberFrom, List.map_cons, List.length_cons, ih (i + 1),
      List.range'_succ]

theorem renumberFrom_length (l : List (String × Nat)) :
    ∀ i, (renumberFrom i l).length = l.length := by
  induction l with
  | nil => intro i; rfl
  | cons p t ih =>
    intro i
    obtain ⟨id, k⟩ := p
    simp [renumberFrom, ih (i + 1)]

theorem dictInsert_length (id : String) (l : List String) :
    (dictInsert id l).length ≤ l.length + 1 := by
  by_cases h : id ∈ l <;> simp [dictInsert, h]

theorem release_slot_nil (id : String) (a : List String) :
    release_slot id ⟨a, []⟩ = ⟨a.erase id, []⟩ := rfl

theorem release_slot_cons (id : String) (a : List String) (hid : String)
    (k : Nat) (t : List (String × Nat)) :
    release_slot id ⟨a, (hid, k) :: t⟩ =
      ⟨dictInsert hid (a.erase id), renumberFrom 0 t⟩ := rfl

theorem posContiguous_renumber (a : List String) (l : List (String × Nat)) :
    posContiguous ⟨a, renumberFrom 0 l⟩ := by
  simp [posContiguous, renumberFrom_map_snd, renumberFrom_length]

theorem q_step_posContiguous (maxC maxQ : Nat) (op : QOp) (s : QState)
    (h : posContiguous s) (hlen : s.waiting.length ≤ maxQ) :
    posContiguous (q_step maxC maxQ op s) ∧
      (q_step maxC maxQ op s).waiting.length ≤ maxQ := by
  obtain ⟨a, w⟩ := s
  simp only [posContiguous] at h hlen ⊢
  cases op with
  | acquire id =>
    simp only [q_step, acquire_slot]
    by_cases h1 : a.length < maxC
    · simpa [h1] using ⟨h, hlen⟩
    · by_cases h2 : maxQ ≤ w.length
      · simpa [h1, h2] using ⟨h, hlen⟩
      · simp only [h1, h2, if_false, ite_false, List.map_append,
          List.length_append, List.map_cons, List.map_nil, List.length_cons,
          List.length_nil]
        constructor
        · rw [h]
          rw [show w.length + (0 + 1) = w.length + 1 by omega,
            List.range'_concat]
          simp
          omega
        · omega
  | release id =>
    cases w with
    | nil => simp [q_step, release_slot_nil]
    | cons p t =>
      obtain ⟨hid, k⟩ := p
      simp only [q_step, release_slot_cons, renumberFrom_length,
        renumberFrom_map_snd, List.length_cons] at *
      exact ⟨by simp, by omega⟩
  | cancel id =>
    simp only [q_step, cancel_request]
    by_cases hc : ((w.map Prod.fst).contains id : Bool)
    · rw [if_pos hc]
      have hsub : (w.eraseP (fun p => p.1 = id)).length ≤ w.length :=
        (List.eraseP_sublist w).length_le
      refine ⟨?_, ?_⟩
      · exact posContiguous_renumber a _
      · show (renumberFrom 0 (w.eraseP (fun p => p.1 = id))).length ≤ maxQ
        rw [renumberFrom_length]
        omega
    · rw [if_neg hc]
      exact ⟨h, hlen⟩

theorem q_run_foldl_inv (maxC maxQ : Nat) (ops : List QOp) :
    ∀ s, posContiguous s → s.waiting.length ≤ maxQ →
      posContiguous (ops.foldl (fun s op => q_step maxC maxQ op s) s) ∧
      (ops.foldl (fun s op => q_step maxC maxQ op s) s).waiting.length ≤ maxQ := by
  induction ops with
  | nil => intro s h1 h2; exact ⟨h1, h2⟩
  | cons op rest ih =>
    intro s h1 h2
    have := q_step_posContiguous maxC maxQ op s h1 h2
    exact ih _ this.1 this.2

theorem q_safeRun_eq_foldl (maxC maxQ : Nat) (ops : List QOp) :
    ∀ s s', q_safeRun maxC maxQ ops s = some s' →
      s' = ops.foldl (fun s op => q_step maxC maxQ op s) s := by
  induction ops with
  | nil =>
    intro s s' h
    simp only [q_safeRun] at h
    cases h
    rfl
  | cons op rest ih =>
    intro s s' h
    cases op with
    | acquire id => exact ih _ _ h
    | cancel id => exact ih _ _ h
    | release id =>
      by_cases hm : id ∈ s.active
      · simp only [q_safeRun, hm, if_true] at h
        exact ih _ _ h
      · simp [q_safeRun, hm] at h

theorem q_step_active_le_acquire (maxC maxQ : Nat) (id : String) (s : QState)
    (hle : s.active.length ≤ maxC) :
    (q_step maxC maxQ (QOp.acquire id) s).active.length ≤ maxC := by
  obtain ⟨a, w⟩ := s
  simp only [q_step, acquire_slot]
  by_cases h1 : a.length < maxC
  · have := dictInsert_length id a
    simp only [h1, if_true]
    omega
  · by_cases h2 : maxQ ≤ w.length <;> simpa [h1, h2] using hle

theorem q_step_active_le_release (maxC maxQ : Nat) (id : String) (s : QState)
    (hm : id ∈ s.active) (hle : s.active.length ≤ maxC) :
    (q_step maxC maxQ (QOp.release id) s).active.length ≤ maxC := by
  obtain ⟨a, w⟩ := s
  have hm' : id ∈ a := hm
  have herase : (a.erase id).length = a.length - 1 :=
    List.length_erase_of_mem hm'
  have hpos : 0 < a.length := List.length_pos.mpr (List.ne_nil_of_mem hm')
  cases w with
  | nil =>
    simp only [q_step, release_slot_nil]
    simp only [List.length_cons] at *
    omega
  | cons p t =>
    obtain ⟨hid, k⟩ := p
    have := dictInsert_length hid (a.erase id)
    simp only [q_step, release_slot_cons]
    simp only [List.length_cons] at *
    omega

theorem q_step_active_le_cancel (maxC maxQ : Nat) (id : String) (s : QState)
    (hle : s.active.length ≤ maxC) :
    (q_step maxC maxQ (QOp.cancel id) s).active.length ≤ maxC := by
  obtain ⟨a, w⟩ := s
  simp only [q_step, cancel_request]
  by_cases hc : ((w.map Prod.fst).contains id : Bool)
  · rw [if_pos hc]
    exact hle
  · rw [if_neg hc]
    exact hle

theorem q_safeRun_active_le (maxC maxQ : Nat) (ops : List QOp) :
    ∀ s s', q_safeRun maxC maxQ ops s = some s' →
      s.active.length ≤ maxC → s'.active.length ≤ maxC := by
  induction ops with
  | nil =>
    intro s s' h hle
    simp only [q_safeRun] at h
    cases h
    exact hle
  | cons op rest ih =>
    intro s s' h hle
    cases op with
    | acquire id =>
      exact ih _ _ h (q_step_active_le_acquire maxC maxQ id s hle)
    | cancel id =>
      exact ih _ _ h (q_step_active_le_cancel maxC maxQ id s hle)
    | release id =>
      by_cases hm : id ∈ s.active
      · simp only [q_safeRun, hm, if_true] at h
        exact ih _ _ h (q_step_active_le_release maxC maxQ id s hm hle)
      · simp [q_safeRun, hm] at h

/-- C4 counterexample: with `max_concurrent = 1`, `max_queue_size = 1`,
admit `a`, queue `b`, then call `release_slot` with an id that is not
in-flight: the head waiter is promoted without anyone leaving, so two
requests are in-flight — the claimed bound `in_flight ≤ max_concurrent`
fails for arbitrary request ids. -/
theorem C4_counterexample :
    (q_run 1 1 [QOp.acquire "a", QOp.acquire "b", QOp.release "x"]).active.length
        = 2 ∧
    ¬ (q_run 1 1 [QOp.acquire "a", QOp.acquire "b",
        QOp.release "x"]).active.length ≤ 1 := by
  refine ⟨by decide, by decide⟩

/-- C4 (amended): after any finite sequence of operations the reported
positions of the waiting items form a contiguous `1..waiting` and
`waiting ≤ max_queue_size`; the bound `in_flight ≤ max_concurrent`
additionally holds whenever every `release_slot` call names an id that is
in-flight at that moment (a release of an unknown id promotes a waiter
without removing anyone and can exceed the bound). -/
theorem C4_queue_invariants (maxC maxQ : Nat) (ops : List QOp) :
    posContiguous (q_run maxC maxQ ops) ∧
    (q_run maxC maxQ ops).waiting.length ≤ maxQ ∧
    (∀ s', q_safeRun maxC maxQ ops q_init = some s' →
      s' = q_run maxC maxQ ops ∧ s'.active.length ≤ maxC) := by
  have hmain := q_run_foldl_inv maxC maxQ ops q_init (by decide) (by simp [q_init])
  refine ⟨hmain.1, hmain.2, ?_⟩
  intro s' h
  exact ⟨q_safeRun_eq_foldl maxC maxQ ops q_init s' h,
    q_safeRun_active_le maxC maxQ ops q_init s' h (by simp [q_init])⟩

/-- C4 witness: a concrete well-disciplined run (every release names an
in-flight id) satisfying all three invariants. -/
theorem C4_queue_invariants_witness :
    posContiguous (q_run 1 1 [QOp.acquire "a", QOp.acquire "b", QOp.release "a"]) ∧
    q_safeRun 1 1 [QOp.acquire "a", QOp.acquire "b", QOp.release "a"] q_init =
      some (q_run 1 1 [QOp.acquire "a", QOp.acquire "b", QOp.release "a"]) ∧
    (q_run 1 1 [QOp.acquire "a", QOp.acquire "b",
      QOp.release "a"]).active.length ≤ 1 := by
  have h := C4_queue_invariants 1 1 [QOp.acquire "a", QOp.acquire "b", QOp.release "a"]
  exact ⟨h.1, by decide, (h.2.2 _ (by decide)).2⟩

/-- `translator.models.Language` (named `LangRecord` here because Mathlib
already has a `Language`). -/
structure LangRecord where
  code : String
  name : String
  name_en : String
  is_enabled : Bool
  sort_order : Int
deriving DecidableEq

/-- One entry of the `languages:` YAML list consumed by
`ConfigLoader.get_languages`: `is_enabled` defaults to `True`,
`sort_order` defaults to `0`. -/
structure LangEntry where
  code : String
  name : String
  name_en : String
  is_enabled : Option Bool := none
  sort_order : Option Int := none

/-- `ConfigLoader.get_languages`: build the `Language` list and sort it by
`sort_order` (Python `list.sort` is a stable sort; stability does not
affect any property below). -/
def get_languages (cfg : List LangEntry) : List LangRecord :=
  (cfg.map (fun e =>
    LangRecord.mk e.code e.name e.name_en (e.is_enabled.getD true)
      (e.sort_order.getD 0))).insertionSort
    (fun x y => x.sort_order ≤ y.sort_order)

/-- `ConfigLoader.get_enabled_languages`. -/
def get_enabled_languages (cfg : List LangEntry) : List LangRecord :=
  (get_languages cfg).filter (fun l => l.is_enabled)

/-- `ConfigLoader.get_language_by_code`: first language (enabled or not)
with the requested code. -/
def get_language_by_code (cfg : List LangEntry) (code : String) :
    Option LangRecord :=
  (get_languages cfg).find? (fun l => l.code = code)

/-- `ConfigLoader.is_valid_language_code`. -/
def is_valid_language_code (cfg : List LangEntry) (code : String) : Bool :=
  if code = "auto" then true
  else (get_language_by_code cfg code).isSome

/-- A language list whose only entry is a disabled `fr`. -/
def cfgDisabledFr : List LangEntry :=
  [⟨"fr", "法文", "French", some false, some 0⟩]

/-- C8 counterexample: `get_language_by_code` searches the full language
list, not the enabled ones, so a disabled code still validates: with a
single disabled `fr` entry, `is_valid_language_code "fr"` is true although
`fr` appears in no enabled language. -/
theorem C8_counterexample :
    is_valid_language_code cfgDisabledFr "fr" = true ∧
    ("fr" : String) ≠ "auto" ∧
    (get_enabled_languages cfgDisabledFr).all (fun l => l.code ≠ "fr") = true := by
  refine ⟨by decide, by decide, by decide⟩

/-- C8 (amended): `is_valid_language_code "auto"` is true, and for every
other code `c` it is true iff `c` appears in the loaded language list —
whether or not that entry is enabled. -/
theorem C8_language_code_validity (cfg : List LangEntry) (code : String) :
    is_valid_language_code cfg code = true ↔
      (code = "auto" ∨ ∃ l ∈ get_languages cfg, l.code = code) := by
  by_cases hauto : code = "auto"
  · simp [is_valid_language_code, hauto]
  · simp only [is_valid_language_code, hauto, if_false, ite_false, false_or,
      get_language_by_code]
    rw [List.find?_isSome]
    simp

/-- One dotted-decimal IPv4 octet as parsed by Python `ipaddress` (digits
only, value ≤ 255, no leading zero). -/
def parseOctet (l : List Char) : Option Nat :=
  if l = [] then none
  else if ¬ l.all Char.isDigit then none
  else if 1 < l.length ∧ l.head? = some '0' then none
  else
    let v := l.foldl (fun acc c => acc * 10 + (c.toNat - '0'.toNat)) 0
    if v ≤ 255 then some v else none

/-- Python `ipaddress.ip_address` restricted to dotted-decimal IPv4 (the
only address family the configured blocks use; any other syntax counts as
a parse failure). -/
def parseIPv4 (s : List Char) : Option Nat :=
  match (splitChar '.' s).mapM parseOctet with
  | some [a, b, c, d] => some (((a * 256 + b) * 256 + c) * 256 + d)
  | _ => none

/-- The 32-bit netmask of a prefix length. -/
def maskOf (p : Nat) : Nat := 2 ^ 32 - 2 ^ (32 - p)

/-- The prefix-length part of a CIDR string (digits, value ≤ 32). -/
def parseCidrLen (l : List Char) : Option Nat :=
  if l = [] then none
  else if ¬ l.all Char.isDigit then none
  else
    let v := l.foldl (fun acc c => acc * 10 + (c.toNat - '0'.toNat)) 0
    if v ≤ 32 then some v else none

/-- Python `ipaddress.ip_network(cidr, strict=False)` for IPv4 CIDR
notation: the network address (host bits masked away) and the prefix
length; a bare address is a `/32`. -/
def parseNetwork (s : List Char) : Option (Nat × Nat) :=
  match splitChar '/' s with
  | [addr] => (parseIPv4 addr).map (fun a => (a, 32))
  | [addr, plen] =>
    match parseIPv4 addr, parseCidrLen plen with
    | some a, some p => some (a &&& maskOf p, p)
    | _, _ => none
  | _ => none

/-- `ConfigLoader.get_admin_allowed_ips`: the configured
`admin_access.allowed_ips` list; when the key is absent a hard-coded
default list of private ranges applies. -/
def get_admin_allowed_ips (cfgAllowedIps : Option (List String)) : List String :=
  cfgAllowedIps.getD
    ["127.0.0.1/32", "192.168.0.0/16", "10.0.0.0/8", "172.16.0.0/12"]

/-- `IPWhitelistMiddleware._get_networks`: parse every configured CIDR,
dropping malformed entries (they only log a warning). -/
def get_networks (cfgAllowedIps : Option (List String)) : List (Nat × Nat) :=
  (get_admin_allowed_ips cfgAllowedIps).filterMap (fun c => parseNetwork c.data)

/-- Python `client_ip in network`. -/
def ipInNetwork (ip : Nat) (net : Nat × Nat) : Bool :=
  ip &&& maskOf net.2 = net.1

/-- `IPWhitelistMiddleware._is_allowed`: empty or unparseable client IPs
are denied; otherwise the IP must fall in at least one parsed network. -/
def is_allowed (cfgAllowedIps : Option (List String)) (ip : String) : Bool :=
  if ip = "" then false
  else
    match parseIPv4 ip.data with
    | none => false
    | some a => (get_networks cfgAllowedIps).any (fun n => ipInNetwork a n)

/-- `IPWhitelistMiddleware._requires_verification`
(`PROTECTED_PATHS = ['/api/v1/admin/']`). -/
def requires_verification (path : String) : Bool :=
  "/api/v1/admin/".data.isPrefixOf path.data

/-- `IPWhitelistMiddleware._get_client_ip`: the leftmost
`X-Forwarded-For` entry when that header is non-empty, else the transport
peer address. -/
def get_client_ip (xForwardedFor : Option String) (remoteAddr : String) : String :=
  match xForwardedFor with
  | some x =>
    if x ≠ "" then
      match splitChar ',' x.data with
      | [] => remoteAddr
      | g :: _ => ⟨stripL g⟩
    else remoteAddr
  | none => remoteAddr

/-- `IPWhitelistMiddleware.__call__`: `some (status, code)` is the denial
response, `none` means the request is passed through. -/
def middleware_call (cfgAllowedIps : Option (List String)) (path : String)
    (xForwardedFor : Option String) (remoteAddr : String) :
    Option (Nat × String) :=
  if requires_verification path &&
      !(is_allowed cfgAllowedIps (get_client_ip xForwardedFor remoteAddr)) then
    some (403, "ACCESS_DENIED")
  else none

/-- C9 counterexample: when the configuration supplies no `allowed_ips`
key at all, the loader substitutes a built-in default list, so admin
access from `127.0.0.1` is allowed rather than every admin request being
denied. -/
theorem C9_counterexample :
    requires_verification "/api/v1/admin/status/" = true ∧
    is_allowed none "127.0.0.1" = true ∧
    middleware_call none "/api/v1/admin/status/" none "127.0.0.1" = none := by
  refine ⟨by decide, by decide, by decide⟩

/-- C9 (amended): an admin-path request whose resolved client IP is
allowed by none of the parsed blocks gets `403 ACCESS_DENIED`; an IP is
allowed iff it parses and lies in at least one well-formed configured
block (malformed blocks are dropped by `get_networks`); an explicitly
empty block list denies every client; but an absent `allowed_ips` key
falls back to the built-in private-range default list instead of denying
all access. -/
theorem C9_admin_ip_guard :
    (∀ (cfg : Option (List String)) (path : String) (xff : Option String)
      (remote : String),
      requires_verification path = true →
      is_allowed cfg (get_client_ip xff remote) = false →
      middleware_call cfg path xff remote = some (403, "ACCESS_DENIED")) ∧
    (∀ (cfg : Option (List String)) (ip : String),
      is_allowed cfg ip = true ↔
        (ip ≠ "" ∧ ∃ a, parseIPv4 ip.data = some a ∧
          ∃ n ∈ get_networks cfg, ipInNetwork a n = true)) ∧
    (∀ ip : String, is_allowed (some []) ip = false) := by
  refine ⟨?_, ?_, ?_⟩
  · intro cfg path xff remote hpath hdeny
    simp [middleware_call, hpath, hdeny]
  · intro cfg ip
    by_cases hemp : ip = ""
    · simp [is_allowed, hemp]
    · simp only [is_allowed, hemp, if_false, ite_false, ne_eq,
        not_false_eq_true, true_and]
      cases hp : parseIPv4 ip.data with
      | none => simp
      | some a =>
        simp only [List.any_eq_true, Option.some.injEq]
        constructor
        · rintro ⟨n, hn, hin⟩
          exact ⟨a, rfl, n, hn, hin⟩
        · rintro ⟨a', ha', n, hn, hin⟩
          cases ha'
          exact ⟨n, hn, hin⟩
  · intro ip
    by_cases hemp : ip = ""
    · simp [is_allowed, hemp]
    · simp only [is_allowed, hemp, if_false, ite_false]
      cases hp : parseIPv4 ip.data with
      | none => rfl
      | some a => rfl

/-- C9 witness: a concrete admin request from outside the single
configured block is denied with `403 ACCESS_DENIED`. -/
theorem C9_admin_ip_guard_witness :
    middleware_call (some ["10.0.0.0/8"]) "/api/v1/admin/status/" none
      "1.2.3.4" = some (403, "ACCESS_DENIED") :=
  C9_admin_ip_guard.1 (some ["10.0.0.0/8"]) "/api/v1/admin/status/" none
    "1.2.3.4" (by decide) (by decide)

/-- Number of characters of a class, `len(re.findall(r'[class]', s))`. -/
def countIn (p : Char → Bool) (l : List Char) : Nat := (l.filter p).length

/-- `[A-Za-z]`. -/
def isLatinLetter (c : Char) : Bool :=
  ('A' ≤ c ∧ c ≤ 'Z') ∨ ('a' ≤ c ∧ c ≤ 'z')

/-- `[一-鿿]`. -/
def isCjkChar (c : Char) : Bool := '一' ≤ c ∧ c ≤ '鿿'

/-- `[぀-ゟ]`. -/
def isHiragana (c : Char) : Bool := '぀' ≤ c ∧ c ≤ 'ゟ'

/-- `[゠-ヿ]`. -/
def isKatakana (c : Char) : Bool := '゠' ≤ c ∧ c ≤ 'ヿ'

/-- `[가-힯]`. -/
def isHangul (c : Char) : Bool := '가' ≤ c ∧ c ≤ '힯'

/-- `TranslationService._rule_based_detection`.  The thresholds 0.1, 0.3
and 0.5 are exact in binary floating point comparison against ratios of
counts, so exact rational arithmetic is faithful here. -/
def rule_based_detection (text : List Char) : Option String × Option ℚ :=
  let sample := text.take 500
  let cjk_count := countIn isCjkChar sample
  let hiragana_count := countIn isHiragana sample
  let katakana_count := countIn isKatakana sample
  let hangul_count := countIn isHangul sample
  let latin_count := countIn isLatinLetter sample
  let total := sample.length
  if total = 0 then (none, none)
  else if ((hiragana_count + katakana_count : ℚ) / total > 0.1) then
    (some "ja", some 0.7)
  else if ((hangul_count : ℚ) / total > 0.1) then (some "ko", some 0.7)
  else if ((cjk_count : ℚ) / total > 0.3) then (some "zh-TW", some 0.6)
  else if ((latin_count : ℚ) / total > 0.5) then (some "en", some 0.6)
  else (some "zh-TW", some 0.5)

/-- The default `language_detection` prompt template of
`ConfigLoader.get_prompt_template`, with `{text}` substituted
(`str.format`). -/
def language_detection_prompt (text : List Char) : List Char :=
  ("請識別以下文字的語言，只回答語言代碼（zh-TW, zh-CN, en, ja, " ++
   "ko, fr, de, es 其中之一）和信心分數（0.0-1.0），格式為" ++
   "「語言代碼:信心分數」。\n\n文字：").data ++ text ++ "\n\n答案：".data

/-- Whether `_detect_language` accepts the raw model output as a
`code:confidence` answer: after stripping it must contain a colon and the
part before the first colon must be a known, non-`auto` language code. -/
def detect_parse_accepts (langs : List LangEntry) (result0 : List Char) : Bool :=
  let result := stripL result0
  result.contains ':' &&
    (match splitChar ':' result with
     | [] => false
     | p0 :: _ =>
       is_valid_language_code langs ⟨stripL p0⟩ &&
         decide ((⟨stripL p0⟩ : String) ≠ "auto"))

/-- `TranslationService._detect_language`: the provider call is the oracle
`gen` (its output, or the exception it raised), Python `float()` parsing
is the oracle `parseFloat` (`None` for a `ValueError`).  Any generation
failure or unusable answer falls back to the rule-based detection. -/
def detect_language (langs : List LangEntry)
    (parseFloat : List Char → Option ℚ)
    (gen : List Char → Except Unit (List Char)) (text : List Char) :
    Option String × Option ℚ :=
  let sampleText := if 200 < text.length then text.take 200 else text
  let prompt := language_detection_prompt (sanitize_text sampleText)
  match gen prompt with
  | Except.error _ => rule_based_detection text
  | Except.ok result0 =>
    let result := stripL result0
    if result.contains ':' then
      match splitChar ':' result with
      | [] => rule_based_detection text
      | p0 :: rest =>
        let langCode : String := ⟨stripL p0⟩
        let confidence : ℚ :=
          match rest with
          | [] => 0.8
          | p1 :: _ => (parseFloat (stripL p1)).getD 0.8
        if is_valid_language_code langs langCode ∧ langCode ≠ "auto" then
          (some langCode, some (min 1 (max 0 confidence)))
        else rule_based_detection text
    else rule_based_detection text

/-- C10: language auto-detection never propagates an error — when the
provider's generate call raises, or its output is not accepted as a known
`code:confidence` answer, `_detect_language` returns the rule-based
heuristic's result instead of raising. -/
theorem C10_detection_falls_back (langs : List LangEntry)
    (parseFloat : List Char → Option ℚ)
    (gen : List Char → Except Unit (List Char)) (text : List Char) :
    (∀ e, gen (language_detection_prompt (sanitize_text
        (if 200 < text.length then text.take 200 else text))) =
          Except.error e →
      detect_language langs parseFloat gen text = rule_based_detection text) ∧
    (∀ r, gen (language_detection_prompt (sanitize_text
        (if 200 < text.length then text.take 200 else text))) =
          Except.ok r →
      detect_parse_accepts langs r = false →
      detect_language langs parseFloat gen text = rule_based_detection text) := by
  constructor
  · intro e hgen
    simp only [detect_language, hgen]
  · intro r hgen hacc
    simp only [detect_parse_accepts, Bool.and_eq_false_iff] at hacc
    simp only [detect_language, hgen]
    by_cases hcol : (stripL r).contains ':'
    · simp only [hcol, if_true, ite_true]
      cases hsp : splitChar ':' (stripL r) with
      | nil => rfl
      | cons p0 rest =>
        rw [hsp] at hacc
        rcases hacc with hacc | hacc
        · rw [hcol] at hacc
          exact absurd hacc (by decide)
        · simp only [Bool.and_eq_false_iff, decide_eq_false_iff_not,
            not_not] at hacc
          rcases hacc with hacc | hacc
          · simp [hacc]
          · simp [hacc]
    · rw [if_neg hcol]

/-- C10 witness: a provider that raises on every call makes detection
return exactly the rule-based result. -/
theorem C10_detection_falls_back_witness :
    detect_language [] (fun _ => none) (fun _ => Except.error ()) "Hello".data =
      rule_based_detection "Hello".data :=
  (C10_detection_falls_back [] (fun _ => none) (fun _ => Except.error ())
    "Hello".data).1 () rfl

/-- The punctuation/symbol character class used by both
`_extract_best_translation_line.is_symbol_only` and the symbol-line
filter inside `_clean_output` (identical classes, modulo listing order). -/
def symbolClassChars : List Char :=
  ['-', '‐', '‑', '–', '—', '_', '=', '~', Char.ofNat 96, Char.ofNat 39,
   '"', '.', ',', ':', ';', '!', '?', '(', ')', '[', ']', '\x7b', '\x7d',
   '<', '>', '|', '/', '\\', '*', '+', '^', '%', '$', '#', '@']

/-- `re.fullmatch(r"[\s…symbols…]+", s) is not None`. -/
def is_symbol_only (l : List Char) : Bool :=
  l ≠ [] && l.all (fun c => isWsChar c || symbolClassChars.contains c)

/-- `TranslationService._looks_like_target_language`. -/
def looks_like_target_language (text : List Char) (targetLanguage : String) :
    Bool :=
  if text = [] ∨ stripL text = [] then false
  else
    let sample := (stripL text).take 200
    if targetLanguage = "en" then
      let latin := countIn isLatinLetter sample
      let cjk := countIn isCjkChar sample
      3 ≤ latin && cjk ≤ latin
    else if targetLanguage = "zh-TW" ∨ targetLanguage = "zh-CN" then
      let cjk := countIn isCjkChar sample
      let latin := countIn isLatinLetter sample
      3 ≤ cjk && latin ≤ cjk
    else true

/-- `TranslationService._extract_best_translation_line`: split into
stripped non-empty lines, drop symbol-only ones, then pick the first line
matching the target language's letter requirement, falling back to the
first candidate. -/
def extract_best_translation_line (text : List Char) (targetLanguage : String) :
    List Char :=
  if text = [] then []
  else
    let lines := (splitNl text).map stripL
    let lines := lines.filter (fun ln => ln ≠ [])
    let candidates := lines.filter (fun ln => ¬ is_symbol_only ln)
    match candidates with
    | [] => []
    | c0 :: _ =>
      if targetLanguage = "en" then
        match candidates.find? (fun ln => 3 ≤ countIn isLatinLetter ln) with
        | some ln => ln
        | none => c0
      else if targetLanguage = "zh-TW" ∨ targetLanguage = "zh-CN" then
        match candidates.find? (fun ln => 3 ≤ countIn isCjkChar ln) with
        | some ln => ln
        | none => c0
      else c0

/-- Case-insensitive prefix match (regex `IGNORECASE`). -/
def ciStripPfx? : List Char → List Char → Option (List Char)
  | [], s => some s
  | _ :: _, [] => none
  | p :: ps, c :: cs => if p.toLower = c.toLower then ciStripPfx? ps cs else none

/-- First alternative that matches at the current position, in regex
alternation order, returning the rest of the input. -/
def ciMatchAny : List (List Char) → List Char → Option (List Char)
  | [], _ => none
  | p :: ps, s =>
    match ciStripPfx? p s with
    | some tail => some tail
    | none => ciMatchAny ps s

/-- The alternatives of
`re.sub(r'\[INST\]|\[/INST\]|<<SYS>>|<</SYS>>', '', …, flags=IGNORECASE)`. -/
def promptMarkers : List (List Char) :=
  ["[INST]".data, "[/INST]".data, "<<SYS>>".data, "<</SYS>>".data]

/-- One left-to-right pass of the case-insensitive marker removal, with
fuel (each step consumes at least one character). -/
def ciRemoveMarkersFuel : Nat → List Char → List Char
  | 0, s => s
  | _ + 1, [] => []
  | fuel + 1, c :: rest =>
    match ciMatchAny promptMarkers (c :: rest) with
    | some tail => ciRemoveMarkersFuel fuel tail
    | none => c :: ciRemoveMarkersFuel fuel rest

def ciRemoveMarkers (s : List Char) : List Char := ciRemoveMarkersFuel s.length s

/-- The dash class `[\-‐‑–—_=]` of the leading-decoration pattern. -/
def isDashClass (c : Char) : Bool :=
  ['-', '‐', '‑', '–', '—', '_', '='].contains c

/-- `re.sub(r'^\s*[\-‐‑–—_=]{3,}\s*(?:>+)?\s*', '', s)` — the three
character classes are pairwise disjoint, so greedy matching consumes
maximal runs in sequence; without at least three dash-class characters
the pattern fails and the string is unchanged. -/
def stripLeadingDashes (s : List Char) : List Char :=
  let s1 := s.dropWhile isWsChar
  let run := s1.takeWhile isDashClass
  if 3 ≤ run.length then
    (((s1.drop run.length).dropWhile isWsChar).dropWhile
      (fun c => c = '>')).dropWhile isWsChar
  else s

/-- `re.sub(r'^\s*(?:>+|\|+)\s*', '', s)`: after optional whitespace there
must be a run of `>` or a run of `|`; otherwise the string is unchanged. -/
def stripLeadingQuoteBars (s : List Char) : List Char :=
  let s1 := s.dropWhile isWsChar
  match s1 with
  | '>' :: _ => (s1.dropWhile (fun c => c = '>')).dropWhile isWsChar
  | '|' :: _ => (s1.dropWhile (fun c => c = '|')).dropWhile isWsChar
  | _ => s

/-- The quote-unwrapping step: `cleaned[1:-1].strip()` when the string
both starts and ends with `"` (or both with `'`). -/
def stripWrappingQuotes (s : List Char) : List Char :=
  if (s.head? = some '"' ∧ s.getLast? = some '"') ∨
      (s.head? = some (Char.ofNat 39) ∧ s.getLast? = some (Char.ofNat 39)) then
    stripL ((s.drop 1).dropLast)
  else s

/-- The `stop_markers` list of `_clean_output`, in source order. -/
def stopMarkers : List (List Char) :=
  ["中文翻譯：".data, "英文翻譯：".data, "日文翻譯：".data, "韓文翻譯：".data,
   "繁體中文翻譯：".data, "簡體中文翻譯：".data,
   "法文翻譯：".data, "德文翻譯：".data, "西班牙文翻譯：".data,
   "Chinese translation:".data, "English translation:".data,
   "Japanese translation:".data, "Korean translation:".data,
   "Translation:".data, "Original:".data,
   "原文：".data, "翻譯：".data,
   "原文:".data, "翻譯:".data]

/-- One iteration of the stop-marker loop: a marker at the start (or
preceded only by ≤ 2 whitespace characters) is dropped and the suffix
kept; a marker further in truncates the text at its position. -/
def applyStopMarker (cleaned marker : List Char) : List Char :=
  match findSub? marker cleaned with
  | none => cleaned
  | some idx =>
    if idx = 0 ∨ (idx ≤ 2 ∧ stripL (cleaned.take idx) = []) then
      lstripL (cleaned.drop (idx + marker.length))
    else stripL (cleaned.take idx)

def applyStopMarkers (cleaned : List Char) : List Char :=
  stopMarkers.foldl applyStopMarker cleaned

/-- The whole-line `skip_patterns` of the line loop. -/
def skipPatterns : List (List Char) :=
  ["原文：".data, "翻譯：".data, "Translation:".data, "Original:".data,
   "原文".data, "翻譯".data, "中文翻譯：".data, "英文翻譯：".data]

def startsWithAny (pats : List (List Char)) (l : List Char) : Bool :=
  pats.any (fun p => (stripPfx? p l).isSome)

/-- Python `line.split(sep, 1)[-1]`: everything after the first
occurrence of `sep` (the whole line when `sep` does not occur). -/
def afterFirstChar (sep : Char) (l : List Char) : List Char :=
  match findSub? [sep] l with
  | none => l
  | some idx => l.drop (idx + 1)

/-- The line-filtering loop of `_clean_output` (accumulator holds the
`result_lines` built so far). -/
def cleanLinesLoop (acc : List (List Char)) :
    List (List Char) → List (List Char)
  | [] => acc
  | line0 :: rest =>
    let line := stripL line0
    if line = [] then
      if acc ≠ [] then cleanLinesLoop (acc ++ [[]]) rest
      else cleanLinesLoop acc rest
    else if is_symbol_only line then cleanLinesLoop acc rest
    else if skipPatterns.contains line then cleanLinesLoop acc rest
    else if startsWithAny ["原文：".data, "Original:".data, "原文:".data] line then
      cleanLinesLoop acc rest
    else if startsWithAny ["翻譯：".data, "Translation:".data, "翻譯:".data] line then
      if acc = [] then
        let content := if line.contains '：' then stripL (afterFirstChar '：' line)
          else stripL (afterFirstChar ':' line)
        if content ≠ [] then cleanLinesLoop (acc ++ [content]) rest
        else cleanLinesLoop acc rest
      else cleanLinesLoop acc rest
    else cleanLinesLoop (acc ++ [line]) rest

/-- Python `'\n'.join`. -/
def joinNl : List (List Char) → List Char
  | [] => []
  | [g] => g
  | g :: gs => g ++ '\n' :: joinNl gs

/-- `re.sub(r'\n\s*\n\s*\n+', '\n\n', s)`.  Every line of `s` is stripped
at this point, so the `\s*` groups can only match newlines; the
substitution collapses each maximal run of three or more newlines to
exactly two. -/
def collapseBlankRuns : List Char → List Char
  | [] => []
  | '\n' :: '\n' :: '\n' :: rest => collapseBlankRuns ('\n' :: '\n' :: rest)
  | c :: rest => c :: collapseBlankRuns rest

/-- The trailing-punctuation class `[。！？.!?]`. -/
def endPunctChars : List Char := ['。', '！', '？', '.', '!', '?']

/-- `re.sub(r'([。！？.!?])\1+$', r'\1', s)`: a trailing run (length ≥ 2)
of one repeated end-punctuation character collapses to a single copy. -/
def collapseTrailingPunct (s : List Char) : List Char :=
  match s.reverse with
  | [] => s
  | c :: rest =>
    if endPunctChars.contains c ∧ rest.head? = some c then
      (rest.dropWhile (fun x => x = c)).reverse ++ [c]
    else s

/-- `TranslationService._clean_output`. -/
def clean_output (text : List Char) : List Char :=
  let c1 := stripL text
  let c2 := stripL (ciRemoveMarkers c1)
  let c3 := stripLeadingDashes c2
  let c4 := stripLeadingQuoteBars c3
  let c5 := stripWrappingQuotes c4
  let c6 := applyStopMarkers c5
  let resultLines := cleanLinesLoop [] (splitNl c6)
  let c7 := collapseBlankRuns (joinNl resultLines)
  let c8 := collapseTrailingPunct c7
  stripL c8

example : clean_output "  你好，世界。。。".data = "你好，世界。".data := by decide
example : clean_output "----------> This is a book.".data =
  "This is a book.".data := by decide
example : clean_output "翻譯：你好".data = "你好".data := by decide
example : clean_output "中".data = "中".data := by decide

theorem head?_dropWhile_fails (p : Char → Bool) (l : List Char) :
    ∀ x, (l.dropWhile p).head? = some x → p x = false := by
  induction l with
  | nil => intro x h; simp [List.dropWhile] at h
  | cons c t ih =>
    intro x h
    by_cases hp : p c
    · simp only [List.dropWhile_cons, hp, if_true, ite_true] at h
      exact ih x h
    · rw [List.dropWhile_cons, if_neg hp] at h
      simp only [List.head?_cons, Option.some.injEq] at h
      subst h
      simpa using hp

theorem dropWhile_eq_self_of_head (p : Char → Bool) (l : List Char)
    (h : ∀ x, l.head? = some x → p x = false) : l.dropWhile p = l := by
  cases l with
  | nil => rfl
  | cons c t =>
    have := h c rfl
    simp [List.dropWhile_cons, this]

theorem getLast?_dropWhile_ne_nil (p : Char → Bool) (l : List Char)
    (h : l.dropWhile p ≠ []) :
    (l.dropWhile p).getLast? = l.getLast? := by
  conv_rhs => rw [← List.takeWhile_append_dropWhile (p := p) (l := l)]
  exact (List.getLast?_append_of_ne_nil _ h).symm

theorem stripL_head_fails (l : List Char) :
    ∀ x, (stripL l).head? = some x → isWsChar x = false := by
  intro x h
  simp only [stripL] at h
  rw [List.head?_reverse] at h
  have hne : ((l.dropWhile isWsChar).reverse.dropWhile isWsChar) ≠ [] := by
    intro hc
    rw [hc] at h
    simp at h
  rw [getLast?_dropWhile_ne_nil _ _ hne, List.getLast?_reverse] at h
  exact head?_dropWhile_fails _ _ x h

theorem stripL_last_fails (l : List Char) :
    ∀ x, (stripL l).getLast? = some x → isWsChar x = false := by
  intro x h
  simp only [stripL] at h
  rw [List.getLast?_reverse] at h
  exact head?_dropWhile_fails _ _ x h

theorem stripL_idem (l : List Char) : stripL (stripL l) = stripL l := by
  have h1 : (stripL l).dropWhile isWsChar = stripL l :=
    dropWhile_eq_self_of_head _ _ (stripL_head_fails l)
  have h2 : (stripL l).reverse.dropWhile isWsChar = (stripL l).reverse := by
    apply dropWhile_eq_self_of_head
    intro x hx
    rw [List.head?_reverse] at hx
    exact stripL_last_fails l x hx
  show (((stripL l).dropWhile isWsChar).reverse.dropWhile isWsChar).reverse =
    stripL l
  rw [h1, h2, List.reverse_reverse]

theorem mem_of_mem_stripL {a : Char} {l : List Char} (h : a ∈ stripL l) :
    a ∈ l := by
  simp only [stripL, List.mem_reverse] at h
  have h2 : a ∈ (l.dropWhile isWsChar).reverse :=
    (List.dropWhile_sublist _).subset h
  rw [List.mem_reverse] at h2
  exact (List.dropWhile_sublist _).subset h2

theorem not_mem_of_mem_splitChar (sep : Char) :
    ∀ (l g : List Char), g ∈ splitChar sep l → sep ∉ g := by
  intro l
  induction l with
  | nil =>
    intro g hg
    simp only [splitChar, List.mem_singleton] at hg
    subst hg
    simp
  | cons c rest ih =>
    intro g hg
    simp only [splitChar] at hg
    cases hsp : splitChar sep rest with
    | nil =>
      rw [hsp] at hg
      by_cases hc : c = sep
      · simp only [hc, if_true, ite_true, List.mem_cons,
          List.mem_singleton, List.not_mem_nil] at hg
        rcases hg with h | h | h <;> first | (subst h; simp) | exact absurd h (by simp)
      · simp only [hc, if_false, ite_false, List.mem_singleton] at hg
        subst hg
        simpa using fun hcc => hc hcc.symm
    | cons g0 gs =>
      rw [hsp] at hg
      by_cases hc : c = sep
      · simp only [hc, if_true, ite_true, List.mem_cons] at hg
        rcases hg with h | h | h
        · subst h; simp
        · exact ih g (hsp ▸ (List.mem_cons_self g0 gs : g0 ∈ g0 :: gs) |> (h ▸ ·))
        · exact ih g (hsp ▸ List.mem_cons_of_mem g0 h)
      · simp only [hc, if_false, ite_false, List.mem_cons] at hg
        rcases hg with h | h
        · subst h
          intro hmem
          rcases List.mem_cons.mp hmem with h | h
          · exact hc h.symm
          · exact ih g0 (hsp ▸ List.mem_cons_self g0 gs) h
        · exact ih g (hsp ▸ List.mem_cons_of_mem g0 h)

theorem splitChar_of_not_mem (sep : Char) :
    ∀ (l : List Char), sep ∉ l → splitChar sep l = [l] := by
  intro l
  induction l with
  | nil => intro _; rfl
  | cons c rest ih =>
    intro h
    have hc : ¬ c = sep := fun hcc => h (hcc ▸ List.mem_cons_self c rest)
    have hrest : sep ∉ rest := fun hm => h (List.mem_cons_of_mem c hm)
    simp only [splitChar, ih hrest, hc, if_false, ite_false]

theorem extract_best_mem_or_nil (t : List Char) (tgt : String) :
    extract_best_translation_line t tgt = [] ∨
      extract_best_translation_line t tgt ∈ (splitNl t).map stripL := by
  unfold extract_best_translation_line
  by_cases ht : t = []
  · simp [ht]
  · simp only [ht, if_false, ite_false]
    cases hcand : ((((splitNl t).map stripL).filter (fun ln => ln ≠ [])).filter
        (fun ln => ¬ is_symbol_only ln)) with
    | nil => left; rfl
    | cons c0 cs =>
      have hsubset :
          ∀ x, x ∈ c0 :: cs → x ∈ (splitNl t).map stripL := by
        intro x hx
        rw [← hcand] at hx
        exact List.mem_of_mem_filter (List.mem_of_mem_filter hx)
      right
      by_cases hen : tgt = "en"
      · simp only [hen, if_true, ite_true]
        cases hf : (c0 :: cs).find? (fun ln => 3 ≤ countIn isLatinLetter ln) with
        | some ln => exact hsubset ln (List.mem_of_find?_eq_some hf)
        | none => exact hsubset c0 (List.mem_cons_self c0 cs)
      · by_cases hzh : tgt = "zh-TW" ∨ tgt = "zh-CN"
        · simp only [hen, hzh, if_false, if_true, ite_true, ite_false]
          cases hf : (c0 :: cs).find? (fun ln => 3 ≤ countIn isCjkChar ln) with
          | some ln => exact hsubset ln (List.mem_of_find?_eq_some hf)
          | none => exact hsubset c0 (List.mem_cons_self c0 cs)
        · simp only [hen, hzh, if_false, ite_false]
          exact hsubset c0 (List.mem_cons_self c0 cs)

theorem extract_best_stripped (t : List Char) (tgt : String)
    (hne : extract_best_translation_line t tgt ≠ []) :
    stripL (extract_best_translation_line t tgt) =
      extract_best_translation_line t tgt ∧
    '\n' ∉ extract_best_translation_line t tgt := by
  rcases extract_best_mem_or_nil t tgt with h | h
  · exact absurd h hne
  · obtain ⟨g, hg, he⟩ := List.mem_map.mp h
    constructor
    · rw [← he, stripL_idem]
    · intro hmem
      have hg' : g ∈ splitChar '\n' t := hg
      have hin : '\n' ∈ g := mem_of_mem_stripL (he ▸ hmem)
      exact not_mem_of_mem_splitChar '\n' t g hg' hin

/-- The single-line rule of `_perform_translation` (UI 需求): when the
request text has no newline, keep the first non-empty stripped line of
the output, or the stripped output when no such line exists. -/
def singleLineRule (translated : List Char) : List Char :=
  let nonEmpty := ((splitNl translated).map stripL).filter (fun ln => ln ≠ [])
  match nonEmpty with
  | ln :: _ => ln
  | [] => stripL translated

theorem singleLineRule_eq_self {e : List Char} (hnl : '\n' ∉ e)
    (hstrip : stripL e = e) (hne : e ≠ []) : singleLineRule e = e := by
  unfold singleLineRule
  rw [show splitNl e = [e] from splitChar_of_not_mem '\n' e hnl]
  simp [hstrip, hne]

/-- Result dictionary of `_perform_translation`. -/
structure PerformResult where
  translated_text : List Char
  detected_language : Option String
  confidence_score : Option ℚ
deriving DecidableEq

/-- Failures crossing `_perform_translation`'s boundary: a
`TranslationError` with its code, or any other Python exception. -/
inductive TranslateErr
  | terr (code : String)
  | pyexc
deriving DecidableEq

/-- `TranslationService._perform_translation`.  External effects are
oracles: `detectGen`/`parseFloat` feed `_detect_language`, and `firstGen`
is the outcome of the first `ModelService.generate` call.  When the
cleaned first output is empty or fails the target-language check, the
code retries — but the retry invokes `ModelService.generate` with a
`generation_overrides` keyword argument that the method signature
(`generate(self, prompt, quality)`) does not accept, so Python raises
`TypeError` before any generation happens.  The single-line rule runs
after the retry block. -/
def perform_translation (langs : List LangEntry)
    (parseFloat : List Char → Option ℚ)
    (detectGen : List Char → Except Unit (List Char))
    (firstGen : Except TranslateErr (List Char))
    (text : List Char) (sourceLanguage targetLanguage : String) :
    Except TranslateErr PerformResult :=
  let det := if sourceLanguage = "auto"
    then detect_language langs parseFloat detectGen text
    else (none, none)
  let sourceLang := if sourceLanguage = "auto"
    then match det.1 with
      | some c => if c = "" then "zh-TW" else c
      | none => "zh-TW"
    else sourceLanguage
  if sourceLang = targetLanguage then
    Except.error (TranslateErr.terr "VALIDATION_SAME_LANGUAGE")
  else
    match firstGen with
    | Except.error e => Except.error e
    | Except.ok rawText =>
      let cleanedText := clean_output rawText
      let translated := extract_best_translation_line
        (if cleanedText = [] then rawText else cleanedText) targetLanguage
      if translated = [] ∨
          ¬ looks_like_target_language translated targetLanguage then
        Except.error TranslateErr.pyexc
      else
        Except.ok
          { translated_text :=
              if ¬ text.contains '\n' then singleLineRule translated
              else translated
            detected_language := det.1
            confidence_score := det.2 }

theorem final_line_ok (e text : List Char) (tgt : String)
    (hstrip : stripL e = e) (hnl : '\n' ∉ e) (hne : e ≠ [])
    (hlook : looks_like_target_language e tgt = true) :
    (if ¬ text.contains '\n' then singleLineRule e else e) ≠ [] ∧
    looks_like_target_language
      (if ¬ text.contains '\n' then singleLineRule e else e) tgt = true := by
  have heq := singleLineRule_eq_self hnl hstrip hne
  by_cases hc : text.contains '\n' <;> simp [hc, heq, hne, hlook]

theorem perform_translation_ok (langs : List LangEntry)
    (parseFloat : List Char → Option ℚ)
    (detectGen : List Char → Except Unit (List Char))
    (firstGen : Except TranslateErr (List Char))
    (text : List Char) (src tgt : String) (r : PerformResult)
    (h : perform_translation langs parseFloat detectGen firstGen text src tgt =
      Except.ok r) :
    r.translated_text ≠ [] ∧
      looks_like_target_language r.translated_text tgt = true := by
  unfold perform_translation at h
  simp only [] at h
  split at h
  all_goals
    split at h
    · simp at h
    · cases firstGen with
      | error e => simp at h
      | ok rawText =>
        simp only [] at h
        split at h
        all_goals
          split at h
          · simp at h
          · rename_i hguard
            push_neg at hguard
            obtain ⟨hne, hlook⟩ := hguard
            simp only [Except.ok.injEq] at h
            subst h
            have hs := extract_best_stripped _ tgt hne
            by_cases hc : '\n' ∈ text
            · simpa [hc] using ⟨hne, hlook⟩
            · have heq := singleLineRule_eq_self hs.2 hs.1 hne
              simpa [hc, heq] using ⟨hne, hlook⟩

/-- Slot outcomes as seen by `TranslationService.translate`. -/
inductive AcquireOutcome | processing | pending | rejected
deriving DecidableEq

/-- The response fields relevant to the claims. -/
structure TResponse where
  status : String
  translated_text : Option (List Char)
  detected_language : Option String
  confidence_score : Option ℚ
  error_code : Option String
deriving DecidableEq

def failedResponse (code : String) : TResponse :=
  ⟨"failed", none, none, none, some code⟩

def pendingResponse : TResponse := ⟨"pending", none, none, none, none⟩

/-- The collaborator outcomes a single `translate` call observes. -/
structure TranslateEnv where
  validationError : Option String
  modelLoaded : Bool
  loadOk : Bool
  slotStatus : AcquireOutcome
  performOutcome : Except TranslateErr PerformResult

/-- `TranslationService.translate`: returns the response together with
the list of `record_request` success flags issued during the call.  Note
the `QUEUE_FULL` rejection path returns directly inside the `try` block
and records nothing. -/
def translate_request (env : TranslateEnv) : TResponse × List Bool :=
  match env.validationError with
  | some code => (failedResponse code, [false])
  | none =>
    if ¬ env.modelLoaded ∧ ¬ env.loadOk then
      (failedResponse "MODEL_NOT_LOADED", [false])
    else
      match env.slotStatus with
      | AcquireOutcome.rejected => (failedResponse "QUEUE_FULL", [])
      | AcquireOutcome.pending => (pendingResponse, [])
      | AcquireOutcome.processing =>
        match env.performOutcome with
        | Except.ok r =>
          ({ status := "completed", translated_text := some r.translated_text,
             detected_language := r.detected_language,
             confidence_score := r.confidence_score, error_code := none },
            [true])
        | Except.error (TranslateErr.terr code) => (failedResponse code, [false])
        | Except.error TranslateErr.pyexc =>
          (failedResponse "INTERNAL_ERROR", [false])

theorem translate_request_completed {env : TranslateEnv}
    (hst : (translate_request env).1.status = "completed") :
    ∃ r, env.performOutcome = Except.ok r ∧
      (translate_request env).1.translated_text = some r.translated_text := by
  obtain ⟨ve, ml, lo, ss, po⟩ := env
  cases ve with
  | some code => simp [translate_request, failedResponse] at hst
  | none =>
    by_cases hload : ¬ ml = true ∧ ¬ lo = true
    · rw [show translate_request ⟨none, ml, lo, ss, po⟩ =
        (failedResponse "MODEL_NOT_LOADED", [false]) from by
          simp [translate_request, hload.1, hload.2]] at hst
      simp [failedResponse] at hst
    · have hload' : ¬ (ml = false ∧ lo = false) := by
        intro hc
        exact hload ⟨by simp [hc.1], by simp [hc.2]⟩
      cases ss with
      | rejected =>
        rw [show translate_request ⟨none, ml, lo, AcquireOutcome.rejected, po⟩ =
          (failedResponse "QUEUE_FULL", []) from by
            simp [translate_request, hload']] at hst
        simp [failedResponse] at hst
      | pending =>
        rw [show translate_request ⟨none, ml, lo, AcquireOutcome.pending, po⟩ =
          (pendingResponse, []) from by simp [translate_request, hload']] at hst
        simp [pendingResponse] at hst
      | processing =>
        rcases po with (code | _) | r
        · rw [show translate_request
            ⟨none, ml, lo, AcquireOutcome.processing,
              Except.error (TranslateErr.terr code)⟩ =
            (failedResponse code, [false]) from by
              simp [translate_request, hload']] at hst
          simp [failedResponse] at hst
        · rw [show translate_request
            ⟨none, ml, lo, AcquireOutcome.processing,
              Except.error TranslateErr.pyexc⟩ =
            (failedResponse "INTERNAL_ERROR", [false]) from by
              simp [translate_request, hload']] at hst
          simp [failedResponse] at hst
        · refine ⟨r, rfl, ?_⟩
          simp [translate_request, hload']

/-- C2: every `translate` response with status `completed` carries a
non-empty `translated_text` that passes the target-language plausibility
check for the request's target language.  A first output that is empty or
fails the check triggers the retry path, which always raises (its
`generation_overrides` keyword is not accepted by
`ModelService.generate`), so no failing text can reach a completed
response; a passing output survives the single-line rule unchanged. -/
theorem C2_completed_passes_plausibility (env : TranslateEnv)
    (langs : List LangEntry) (parseFloat : List Char → Option ℚ)
    (detectGen : List Char → Except Unit (List Char))
    (firstGen : Except TranslateErr (List Char))
    (text : List Char) (src tgt : String)
    (hperf : env.performOutcome =
      perform_translation langs parseFloat detectGen firstGen text src tgt)
    (hst : (translate_request env).1.status = "completed") :
    (translate_request env).1.translated_text ≠ none ∧
    ∀ t, (translate_request env).1.translated_text = some t →
      t ≠ [] ∧ looks_like_target_language t tgt = true := by
  obtain ⟨r, hpo, htt⟩ := translate_request_completed hst
  have hok := perform_translation_ok langs parseFloat detectGen firstGen text
    src tgt r (by rw [← hperf]; exact hpo)
  rw [htt]
  refine ⟨by simp, ?_⟩
  intro t ht
  simp only [Option.some.injEq] at ht
  subst ht
  exact hok

/-- C2 witness: a concrete completed call (provider echoes a Japanese
line for target `ja`) whose final text is non-empty and passes the
plausibility check. -/
theorem C2_completed_passes_plausibility_witness :
    "こんにちは世界".data ≠ ([] : List Char) ∧
    looks_like_target_language "こんにちは世界".data "ja" = true :=
  (C2_completed_passes_plausibility
    ⟨none, true, true, AcquireOutcome.processing,
      perform_translation [] (fun _ => none) (fun _ => Except.error ())
        (Except.ok "こんにちは世界".data) "Hello".data "en" "ja"⟩
    [] (fun _ => none) (fun _ => Except.error ())
    (Except.ok "こんにちは世界".data) "Hello".data "en" "ja" rfl
    (by decide)).2 "こんにちは世界".data (by decide)

/-- The environment of a queue-full rejection. -/
def queueFullEnv : TranslateEnv :=
  ⟨none, true, true, AcquireOutcome.rejected, Except.error TranslateErr.pyexc⟩

/-- C5 counterexample: the queue-full rejection is a terminal `failed`
response with `QUEUE_FULL`, yet zero statistics records are produced —
not the exactly-one record the claim demands. -/
theorem C5_counterexample :
    (translate_request queueFullEnv).1.status = "failed" ∧
    (translate_request queueFullEnv).1.error_code = some "QUEUE_FULL" ∧
    (translate_request queueFullEnv).2 = [] ∧
    (translate_request queueFullEnv).2.length ≠ 1 := by
  refine ⟨rfl, rfl, rfl, by decide⟩

/-- C5 (amended): a completed response records exactly one success, a
pending response records nothing, and a failed response records exactly
one failure — except the queue-full rejection path, which returns
directly from inside the `try` block and records nothing. -/
theorem C5_statistics_records (env : TranslateEnv) :
    ((translate_request env).1.status = "completed" →
      (translate_request env).2 = [true]) ∧
    ((translate_request env).1.status = "pending" →
      (translate_request env).2 = []) ∧
    ((env.validationError = none ∧ (env.modelLoaded ∨ env.loadOk) ∧
        env.slotStatus = AcquireOutcome.rejected) →
      translate_request env = (failedResponse "QUEUE_FULL", [])) ∧
    ((translate_request env).1.status = "failed" →
      ¬ (env.validationError = none ∧ (env.modelLoaded ∨ env.loadOk) ∧
        env.slotStatus = AcquireOutcome.rejected) →
      (translate_request env).2 = [false]) := by
  obtain ⟨ve, ml, lo, ss, po⟩ := env
  cases ve with
  | some code =>
    refine ⟨?_, ?_, ?_, ?_⟩ <;>
      simp [translate_request, failedResponse, pendingResponse]
  | none =>
    cases ml <;> cases lo <;> cases ss <;> rcases po with (code | _) | r <;>
      refine ⟨?_, ?_, ?_, ?_⟩ <;>
        simp [translate_request, failedResponse, pendingResponse]

/-- The environment of a successful synchronous translation. -/
def completedEnv : TranslateEnv :=
  ⟨none, true, true, AcquireOutcome.processing,
    Except.ok ⟨"你好".data, none, none⟩⟩

/-- C5 witness: a completed call records exactly one success. -/
theorem C5_statistics_records_witness :
    (translate_request completedEnv).2 = [true] :=
  (C5_statistics_records completedEnv).1 rfl
